import Mathlib

set_option maxRecDepth 4000

namespace StrOps

/-! Character-list implementations of the string primitives the embedded code
uses, so that every definition evaluates by kernel reduction. -/

/-- Splits a character list at every occurrence of the separator, keeping
empty pieces. -/
def splitCharAux (sep : Char) : List Char → List Char → List (List Char)
  | [], acc => [acc.reverse]
  | c :: rest, acc =>
      if c == sep then acc.reverse :: splitCharAux sep rest []
      else splitCharAux sep rest (c :: acc)

/-- Splits a string at every occurrence of a one-character separator, keeping
empty pieces, as the split of the runtimes does. -/
def splitChar (sep : Char) (s : String) : List String :=
  (splitCharAux sep s.data []).map String.mk

/-- Removes leading and trailing whitespace. -/
def trimStr (s : String) : String :=
  String.mk (((s.data.dropWhile Char.isWhitespace).reverse.dropWhile Char.isWhitespace).reverse)

/-- Lowercases every character of a string. -/
def lowerStr (s : String) : String :=
  String.mk (s.data.map Char.toLower)

/-- Tests whether the second string is a leading piece of the first. -/
def strStartsWith (s p : String) : Bool :=
  p.data.isPrefixOf s.data

end StrOps

namespace Debit

/-! Shallow embedding of the debit-note automation tool.
The repository contains the Next.js frontend (app/page.tsx), the basic-auth
middleware (middleware.ts) and documentation; the FastAPI conversion engine
(api/main.py) is not part of the checked-in sources, so the conversion
pipeline below is modelled from the specification. -/

/-- Modelled from the spec: error taxonomy of section 7 (the engine api/main.py
is not in the repository). -/
inductive ConvError where
  | unreadableDocument
  | extractionFailed
  | invalidSuffix
  | renderFailed
  | bundlingFailed
deriving DecidableEq

/-- Modelled from the spec: a RawDocument block is either a paragraph of plain
text or a table of rows of cell texts (section 3). -/
inductive Block where
  | paragraph (text : String)
  | table (rows : List (List String))
deriving DecidableEq

/-- Modelled from the spec: a RawDocument is an ordered sequence of blocks. -/
abbrev RawDocument : Type := List Block

/-- Modelled from the spec: the closed set of semantic contract-field keys
(section 3). -/
inductive FieldKey where
  | insured
  | reinsured
  | premiumAmount
  | premiumCurrency
  | brokerage
  | paymentTerms
  | insuredAddress
  | reinsuredAddress
deriving DecidableEq

/-- Modelled from the spec: ContractFields holds a value for every key of the
closed set, so a template can never miss a key (section 3 invariant). -/
structure ContractFields where
  insured : String
  reinsured : String
  premiumAmount : String
  premiumCurrency : String
  brokerage : String
  paymentTerms : String
  insuredAddress : String
  reinsuredAddress : String
deriving DecidableEq

/-- Projection of a ContractFields record at a semantic key. -/
def getField (f : ContractFields) : FieldKey → String
  | .insured => f.insured
  | .reinsured => f.reinsured
  | .premiumAmount => f.premiumAmount
  | .premiumCurrency => f.premiumCurrency
  | .brokerage => f.brokerage
  | .paymentTerms => f.paymentTerms
  | .insuredAddress => f.insuredAddress
  | .reinsuredAddress => f.reinsuredAddress

/-- Modelled from the spec: the explicit placeholder ("empty marker") stored
for a field no strategy matched (section 4.2 item 4). -/
def placeholder : String := ""

/-- Removes trailing colon and whitespace characters from a label. -/
def stripLabelEnd (s : String) : String :=
  String.mk ((s.data.reverse.dropWhile (fun c => c == ':' || c == ' ' || c == '\t')).reverse)

/-- Modelled from the spec: label normalisation is case-insensitive and
tolerant of trailing punctuation and whitespace (section 4.2 item 2). -/
def normalizeLabel (s : String) : String :=
  stripLabelEnd (StrOps.lowerStr (StrOps.trimStr s))

/-- Modelled from the spec: the declared, ordered table of accepted label
spellings per field key (section 9 leaves the exact spellings open as
configuration data; a representative table is fixed here). -/
def fieldTable : List (FieldKey × List String) :=
  [ (.insured, ["insured"]),
    (.reinsured, ["reinsured"]),
    (.premiumAmount, ["premium", "premium amount", "gross premium"]),
    (.premiumCurrency, ["currency", "premium currency"]),
    (.brokerage, ["brokerage", "brokerage rate"]),
    (.paymentTerms, ["payment terms", "terms of payment"]),
    (.insuredAddress, ["insured address", "address of insured"]),
    (.reinsuredAddress, ["reinsured address", "address of reinsured"]) ]

/-- Modelled from the spec: resolve a written label to a field key,
first-match-wins in declaration order over the normalised spelling. -/
def matchLabel (s : String) : Option FieldKey :=
  (fieldTable.find? (fun kv => kv.2.contains (normalizeLabel s))).map Prod.fst

/-- Modelled from the spec: extraction strategy (a), table-cell lookup — first
row in document order whose first cell resolves to the key; the following
cells joined are the value (section 4.2 item 1a). -/
def tableLookup (doc : RawDocument) (k : FieldKey) : Option String :=
  doc.findSome? fun b =>
    match b with
    | .table rows =>
        rows.findSome? fun row =>
          match row with
          | [] => none
          | lbl :: rest =>
              if matchLabel lbl = some k ∧ rest ≠ [] then
                some (String.intercalate " " rest)
              else none
    | .paragraph _ => none

/-- Splits a paragraph at its first colon into label part and value part. -/
def splitLabelValue (s : String) : Option (String × String) :=
  match StrOps.splitChar ':' s with
  | [] => none
  | [_] => none
  | l :: rest => some (l, String.intercalate ":" rest)

/-- Modelled from the spec: extraction strategy (b), inline-label lookup — a
paragraph whose text before the first colon resolves to the key; the remainder
of the paragraph is the value (section 4.2 item 1b). -/
def inlineLookup (doc : RawDocument) (k : FieldKey) : Option String :=
  doc.findSome? fun b =>
    match b with
    | .paragraph t =>
        match splitLabelValue t with
        | some (l, v) => if matchLabel l = some k then some (StrOps.trimStr v) else none
        | none => none
    | .table _ => none

/-- Modelled from the spec: per-field extraction tries the ordered strategies
and falls back to the placeholder; the positional strategy (c) applies to no
field of the representative configuration (section 9 open question). -/
def extractField (doc : RawDocument) (k : FieldKey) : String :=
  match tableLookup doc k with
  | some v => v
  | none =>
      match inlineLookup doc k with
      | some v => v
      | none => placeholder

/-- The ContractFields record best-effort extracted from a document. -/
def fieldsOf (doc : RawDocument) : ContractFields :=
  { insured := extractField doc .insured,
    reinsured := extractField doc .reinsured,
    premiumAmount := extractField doc .premiumAmount,
    premiumCurrency := extractField doc .premiumCurrency,
    brokerage := extractField doc .brokerage,
    paymentTerms := extractField doc .paymentTerms,
    insuredAddress := extractField doc .insuredAddress,
    reinsuredAddress := extractField doc .reinsuredAddress }

/-- Modelled from the spec: FieldExtractor fails with ExtractionFailed only
when the document has no blocks at all; otherwise extraction always completes
(section 4.2 error condition). -/
def extractFields (doc : RawDocument) : Except ConvError ContractFields :=
  if doc.isEmpty then .error .extractionFailed else .ok (fieldsOf doc)

/-- Modelled from the spec: the two output variants, A client-facing and B
reinsurer-facing. -/
inductive Variant where
  | A
  | B
deriving DecidableEq

/-- Short tag of a variant used in deterministic entry names. -/
def variantTag : Variant → String
  | .A => "A"
  | .B => "B"

/-- Modelled from the spec: each variant owns its field subset; brokerage
appears only in the reinsurer variant (section 4.4). -/
def schemaOf : Variant → List FieldKey
  | .A => [.insured, .reinsured, .premiumAmount, .premiumCurrency, .paymentTerms, .insuredAddress]
  | .B => [.insured, .reinsured, .premiumAmount, .premiumCurrency, .brokerage, .paymentTerms, .reinsuredAddress]

/-- Modelled from the spec: each variant owns its field-to-label mapping and
may label the same field differently (section 4.4). -/
def displayLabel : Variant → FieldKey → String
  | .A, .insured => "Insured"
  | .A, .reinsured => "Reinsured"
  | .A, .premiumAmount => "Premium"
  | .A, .premiumCurrency => "Currency"
  | .A, .brokerage => "Brokerage"
  | .A, .paymentTerms => "Payment Terms"
  | .A, .insuredAddress => "Address"
  | .A, .reinsuredAddress => "Reinsured Address"
  | .B, .insured => "Insured Party"
  | .B, .reinsured => "Reinsured Party"
  | .B, .premiumAmount => "Gross Premium"
  | .B, .premiumCurrency => "Currency"
  | .B, .brokerage => "Brokerage"
  | .B, .paymentTerms => "Terms of Payment"
  | .B, .insuredAddress => "Insured Address"
  | .B, .reinsuredAddress => "Address"

/-- Modelled from the spec: a RenderedDocument is a named payload tagged with
its variant; its content is the template lines after pure substitution. -/
structure RenderedDocument where
  variant : Variant
  name : String
  lines : List (String × String)
deriving DecidableEq

/-- Modelled from the spec: TemplateRenderer merges the fields and the
reference id into the variant template by pure substitution (section 4.4);
entry names derive from the variant and the reference id only. -/
def render (v : Variant) (f : ContractFields) (ref : String) : RenderedDocument :=
  { variant := v,
    name := "debit_note_" ++ variantTag v ++ "_" ++ ref ++ ".docx",
    lines := ("Reference", ref) :: (schemaOf v).map (fun k => (displayLabel v k, getField f k)) }

/-- Modelled from the spec: a Bundle holds exactly two named entries, one per
variant (section 3). -/
structure Bundle where
  docA : RenderedDocument
  docB : RenderedDocument
deriving DecidableEq

/-- Fixed reference stem of every produced reference id (the UI renders the
identifiers as DN-RHB followed by the suffix). -/
def refStem : String := "DN-RHB"

/-- Modelled from the spec: safety policy for one suffix character —
alphanumeric, hyphen or underscore (section 4.3). -/
def safeChar (c : Char) : Bool :=
  c.isAlphanum || c == '-' || c == '_'

/-- Modelled from the spec: a suffix is accepted when non-empty and made of
safe characters only (section 4.3). -/
def safeSuffix (s : String) : Bool :=
  !s.data.isEmpty && s.data.all safeChar

/-- Joins the fixed stem and a suffix with a hyphen into a ReferenceId. -/
def composeRef (stem sfx : String) : String :=
  stem ++ "-" ++ sfx

/-- Modelled from the spec: ReferenceComposer returns the two reference ids or
fails with InvalidSuffix; unsafe characters are never stripped (section 4.3). -/
def composeReferences (sA sB : String) : Except ConvError (String × String) :=
  if safeSuffix sA && safeSuffix sB then
    .ok (composeRef refStem sA, composeRef refStem sB)
  else .error .invalidSuffix

/-- The bundle a successful conversion produces for a document and a pair of
suffixes. -/
def bundleOf (doc : RawDocument) (sA sB : String) : Bundle :=
  { docA := render .A (fieldsOf doc) (composeRef refStem sA),
    docB := render .B (fieldsOf doc) (composeRef refStem sB) }

/-- Modelled from the spec: ConversionService orchestration from the
RawDocument produced by DocumentReader onwards (DOCX byte decoding is outside
the embedding); any stage error short-circuits (sections 4.6 and 7). -/
def convert (doc : RawDocument) (sA sB : String) : Except ConvError Bundle :=
  match extractFields doc with
  | .error e => .error e
  | .ok fields =>
      match composeReferences sA sB with
      | .error e => .error e
      | .ok (refA, refB) =>
          .ok { docA := render .A fields refA, docB := render .B fields refB }

end Debit

namespace Gate

/-! Embedding of middleware.ts, the basic-auth access gate in front of the
application. -/

/-- Request shape seen by the middleware: the URL pathname and the optional
Authorization header. -/
structure MwRequest where
  pathname : String
  authorization : Option String
deriving DecidableEq

/-- Response of the middleware: pass-through or a 401 with a message body and
a WWW-Authenticate challenge value. -/
inductive MwResponse where
  | next
  | unauthorized (message : String) (challenge : String)
deriving DecidableEq

/-- Challenge header value of the missing-credentials branch. -/
def challengePlain : String := "Basic realm=\"Protected Area\""

/-- Challenge header value of the wrong-credentials branch. -/
def challengeUtf8 : String := "Basic realm=\"Protected Area\", charset=\"UTF-8\""

/-- Paths excluded from authentication: Next internals and public assets. -/
def excludedPath (p : String) : Bool :=
  StrOps.strStartsWith p "/_next/" || StrOps.strStartsWith p "/favicon.ico" ||
  StrOps.strStartsWith p "/robots.txt" || StrOps.strStartsWith p "/sitemap.xml"

/-- ASCII whitespace removed by forgiving base64 decoding. -/
def isB64Ws (c : Char) : Bool :=
  c == ' ' || c == '\t' || c == '\n' || c == '\r' || c == '\x0c'

/-- Value of one base64 alphabet character, none for a foreign character. -/
def base64Index (c : Char) : Option Nat :=
  if 'A' ≤ c ∧ c ≤ 'Z' then some (c.toNat - 65)
  else if 'a' ≤ c ∧ c ≤ 'z' then some (c.toNat - 97 + 26)
  else if '0' ≤ c ∧ c ≤ '9' then some (c.toNat - 48 + 52)
  else if c == '+' then some 62
  else if c == '/' then some 63
  else none

/-- Removes up to two trailing padding characters when the length divides by
four, as forgiving base64 decoding does. -/
def stripPad (l : List Char) : List Char :=
  if l.length % 4 == 0 then
    match l.reverse with
    | '=' :: '=' :: rest => rest.reverse
    | '=' :: rest => rest.reverse
    | _ => l
  else l

/-- Reassembles decoded bytes from the 6-bit values, discarding leftover
bits at the end of the stream. -/
def decodeB64 : List Nat → Nat → Nat → List Char
  | [], _, _ => []
  | v :: rest, acc, bits =>
      let acc2 := acc * 64 + v
      let bits2 := bits + 6
      if 8 ≤ bits2 then
        Char.ofNat (acc2 / 2 ^ (bits2 - 8)) :: decodeB64 rest (acc2 % 2 ^ (bits2 - 8)) (bits2 - 8)
      else decodeB64 rest acc2 bits2

/-- The atob function of the runtime: forgiving base64 decoding, none when
the input is rejected. -/
def atob (s : String) : Option String :=
  let cs := stripPad (s.data.filter (fun c => !isB64Ws c))
  if cs.length % 4 == 1 then none
  else (cs.mapM base64Index).map (fun vs => String.mk (decodeB64 vs 0 0))

/-- The middleware of middleware.ts: pass excluded paths through, otherwise
demand a Basic credential matching the configured user and password; the
credential is the part after the first space, decoded, split at colons. -/
def middleware (user pw : String) (req : MwRequest) : MwResponse :=
  if excludedPath req.pathname then .next
  else
    let auth := req.authorization.getD ""
    if !(StrOps.strStartsWith auth "Basic ") then
      .unauthorized "Authentication required." challengePlain
    else
      match atob ((StrOps.splitChar ' ' auth).getD 1 "") with
      | some decoded =>
          let creds := StrOps.splitChar ':' decoded
          if creds.getD 0 "" = user ∧ creds.get? 1 = some pw then .next
          else .unauthorized "Invalid credentials." challengeUtf8
      | none => .unauthorized "Invalid credentials." challengeUtf8

/-- Restatement of the pass condition in the words of the specification of the
gate: the header is a Basic credential whose decoded user part (before the
first colon) and password part (between the first and second colon, as the
split-at-colon parsing of the source defines them) equal the configured
values. -/
def authPasses (user pw : String) (auth : String) : Bool :=
  StrOps.strStartsWith auth "Basic " &&
  match atob ((StrOps.splitChar ' ' auth).getD 1 "") with
  | some decoded =>
      decide ((StrOps.splitChar ':' decoded).getD 0 "" = user ∧
              (StrOps.splitChar ':' decoded).get? 1 = some pw)
  | none => false

end Gate

namespace Form

/-! Embedding of the upload form logic of app/page.tsx. -/

/-- Whitespace in the sense of the trim of the runtime. -/
def isJsWs (c : Char) : Bool :=
  c == ' ' || c == '\t' || c == '\n' || c == '\r' || c == '\x0b' || c == '\x0c'

/-- The trim of the runtime: removes leading and trailing whitespace. -/
def jsTrim (s : String) : String :=
  String.mk (((s.data.dropWhile isJsWs).reverse.dropWhile isJsWs).reverse)

/-- The canGenerate gate of the form: a file is selected, both suffixes are
non-empty after trimming, and no request is in flight. -/
def canGenerate (file : Option String) (refA refB : String) (loading : Bool) : Bool :=
  file.isSome && decide (0 < (jsTrim refA).length) && decide (0 < (jsTrim refB).length) && !loading

/-- The handleGenerate action: returns the pair of suffix values submitted as
form fields, none when the gate blocks the request. -/
def handleGenerate (file : Option String) (refA refB : String) (loading : Bool) :
    Option (String × String) :=
  if canGenerate file refA refB loading && file.isSome then
    some (jsTrim refA, jsTrim refB)
  else none

end Form

namespace Debit

/-! Helper lemmas about the conversion pipeline. -/

theorem string_ext {s t : String} (h : s.data = t.data) : s = t := by
  cases s
  cases t
  exact congrArg String.mk h

theorem extractFields_ok {doc : RawDocument} (h : doc ≠ []) :
    extractFields doc = .ok (fieldsOf doc) := by
  simp [extractFields, List.isEmpty_eq_true, h]

theorem convert_ok_eq (doc : RawDocument) (sA sB : String) (hdoc : doc ≠ [])
    (hA : safeSuffix sA = true) (hB : safeSuffix sB = true) :
    convert doc sA sB = .ok (bundleOf doc sA sB) := by
  simp [convert, extractFields_ok hdoc, composeReferences, hA, hB, bundleOf]

theorem getField_fieldsOf (doc : RawDocument) (k : FieldKey) :
    getField (fieldsOf doc) k = extractField doc k := by
  cases k <;> rfl

theorem extractField_missing {doc : RawDocument} {k : FieldKey}
    (ht : tableLookup doc k = none) (hi : inlineLookup doc k = none) :
    extractField doc k = placeholder := by
  simp [extractField, ht, hi]

theorem mem_render_lines {v : Variant} {f : ContractFields} {ref : String} {k : FieldKey}
    (hk : k ∈ schemaOf v) :
    (displayLabel v k, getField f k) ∈ (render v f ref).lines := by
  simp only [render, List.mem_cons, List.mem_map]
  exact Or.inr ⟨k, hk, rfl⟩

theorem safeSuffix_eq_false {s : String}
    (h : s = "" ∨ ∃ c ∈ s.data, safeChar c = false) : safeSuffix s = false := by
  rcases h with h | ⟨c, hc, hcf⟩
  · subst h; rfl
  · have : s.data.all safeChar = false := by
      simp only [List.all_eq_false]
      exact ⟨c, hc, by simp [hcf]⟩
    simp [safeSuffix, this]

theorem composeRef_inj {a b : String} (h : composeRef refStem a = composeRef refStem b) :
    a = b := by
  have hd := congrArg String.data h
  simp only [composeRef, String.data_append] at hd
  exact string_ext (List.append_cancel_left hd)

theorem convert_ok_names {d : RawDocument} {sA sB : String} {b : Bundle}
    (h : convert d sA sB = Except.ok b) :
    b.docA.name = "debit_note_" ++ variantTag .A ++ "_" ++ composeRef refStem sA ++ ".docx" ∧
    b.docB.name = "debit_note_" ++ variantTag .B ++ "_" ++ composeRef refStem sB ++ ".docx" := by
  unfold convert at h
  cases hE : extractFields d with
  | error e => rw [hE] at h; simp at h
  | ok fields =>
    rw [hE] at h
    by_cases hs : (safeSuffix sA && safeSuffix sB) = true
    · have hc : composeReferences sA sB = Except.ok (composeRef refStem sA, composeRef refStem sB) := by
        simp [composeReferences, hs]
      rw [hc] at h
      have hb := Except.ok.inj h
      rw [← hb]
      exact ⟨rfl, rfl⟩
    · have hs2 : (safeSuffix sA && safeSuffix sB) = false := by simpa using hs
      have hc : composeReferences sA sB = Except.error ConvError.invalidSuffix := by
        simp [composeReferences, hs2]
      rw [hc] at h
      simp at h

end Debit

namespace Debit

/-- C1: for every readable document with at least one block and safe suffixes,
convert still succeeds, and each rendered document of the bundle contains the
defined placeholder value for every field no extraction strategy matched; a
missing field never causes extraction or rendering to fail. -/
theorem convert_missing_fields_placeholder (doc : RawDocument) (sA sB : String)
    (hdoc : doc ≠ []) (hA : safeSuffix sA = true) (hB : safeSuffix sB = true) :
    convert doc sA sB = Except.ok (bundleOf doc sA sB) ∧
    ∀ k : FieldKey, tableLookup doc k = none → inlineLookup doc k = none →
      (k ∈ schemaOf Variant.A →
        (displayLabel Variant.A k, placeholder) ∈ (bundleOf doc sA sB).docA.lines) ∧
      (k ∈ schemaOf Variant.B →
        (displayLabel Variant.B k, placeholder) ∈ (bundleOf doc sA sB).docB.lines) := by
  refine ⟨convert_ok_eq doc sA sB hdoc hA hB, ?_⟩
  intro k ht hi
  constructor <;> intro hk
  · have hm := @mem_render_lines Variant.A (fieldsOf doc) (composeRef refStem sA) k hk
    rw [getField_fieldsOf, extractField_missing ht hi] at hm
    exact hm
  · have hm := @mem_render_lines Variant.B (fieldsOf doc) (composeRef refStem sB) k hk
    rw [getField_fieldsOf, extractField_missing ht hi] at hm
    exact hm

/-- Witness for C1: a one-paragraph document matching no field converts
successfully and variant A renders the placeholder for the insured field. -/
theorem convert_missing_fields_placeholder_witness :
    convert [Block.paragraph "hello"] "a" "b" =
      Except.ok (bundleOf [Block.paragraph "hello"] "a" "b") ∧
    (displayLabel Variant.A FieldKey.insured, placeholder) ∈
      (bundleOf [Block.paragraph "hello"] "a" "b").docA.lines := by
  have h := convert_missing_fields_placeholder [Block.paragraph "hello"] "a" "b"
    (by decide) (by decide) (by decide)
  exact ⟨h.1, (h.2 FieldKey.insured (by decide) (by decide)).1 (by decide)⟩

/-- C2: for safe suffixes the composer returns exactly the two identifiers
obtained by joining the fixed DN-RHB stem and the suffix with a hyphen; in
particular the suffixes 2025-001 and 2025-002 produce DN-RHB-2025-001 and
DN-RHB-2025-002. -/
theorem composeReferences_correct (sA sB : String)
    (hA : safeSuffix sA = true) (hB : safeSuffix sB = true) :
    composeReferences sA sB = Except.ok (refStem ++ "-" ++ sA, refStem ++ "-" ++ sB) ∧
    composeReferences "2025-001" "2025-002" =
      Except.ok ("DN-RHB-2025-001", "DN-RHB-2025-002") := by
  constructor
  · simp [composeReferences, hA, hB, composeRef]
  · rfl

/-- Witness for C2 at the concrete suffixes of the scenario. -/
theorem composeReferences_correct_witness :
    composeReferences "2025-001" "2025-002" =
      Except.ok (refStem ++ "-" ++ "2025-001", refStem ++ "-" ++ "2025-002") ∧
    composeReferences "2025-001" "2025-002" =
      Except.ok ("DN-RHB-2025-001", "DN-RHB-2025-002") :=
  composeReferences_correct "2025-001" "2025-002" (by decide) (by decide)

/-- C3: whenever either suffix is empty or contains a character that is not
alphanumeric, hyphen or underscore, the composer fails with InvalidSuffix and
convert never produces a bundle. -/
theorem invalidSuffix_rejected (doc : RawDocument) (sA sB : String)
    (h : (sA = "" ∨ ∃ c ∈ sA.data, safeChar c = false) ∨
         (sB = "" ∨ ∃ c ∈ sB.data, safeChar c = false)) :
    composeReferences sA sB = Except.error ConvError.invalidSuffix ∧
    ∀ b : Bundle, convert doc sA sB ≠ Except.ok b := by
  have hfalse : (safeSuffix sA && safeSuffix sB) = false := by
    rcases h with h | h
    · simp [safeSuffix_eq_false h]
    · simp [safeSuffix_eq_false h]
  have hc : composeReferences sA sB = Except.error ConvError.invalidSuffix := by
    simp [composeReferences, hfalse]
  refine ⟨hc, ?_⟩
  intro b
  unfold convert
  cases hE : extractFields doc with
  | error e => simp
  | ok fields => rw [hc]; simp

/-- Witness for C3: a suffix with an exclamation mark is rejected and the
conversion of the empty document with it is not a success. -/
theorem invalidSuffix_rejected_witness :
    composeReferences "bad!" "ok" = Except.error ConvError.invalidSuffix ∧
    (convert [] "bad!" "ok").isOk = false := by
  have h := invalidSuffix_rejected [] "bad!" "ok"
    (Or.inl (Or.inr ⟨'!', by decide, by decide⟩))
  refine ⟨h.1, ?_⟩
  cases hc : convert [] "bad!" "ok" with
  | ok b => exact absurd hc (h.2 b)
  | error e => rfl

/-- C4: the FieldExtractor fails with ExtractionFailed exactly when the
document has no blocks; any document with at least one block extracts
successfully. -/
theorem extraction_fails_iff_no_blocks (doc : RawDocument) :
    (extractFields doc = Except.error ConvError.extractionFailed ↔ doc = []) ∧
    (doc ≠ [] → extractFields doc = Except.ok (fieldsOf doc)) := by
  constructor
  · constructor
    · intro h
      by_contra hne
      rw [extractFields_ok hne] at h
      simp at h
    · intro h
      subst h
      rfl
  · exact fun h => extractFields_ok h

/-- Witness for C4: the empty document fails and a one-paragraph document
succeeds. -/
theorem extraction_fails_iff_no_blocks_witness :
    extractFields [] = Except.error ConvError.extractionFailed ∧
    extractFields [Block.paragraph "x"] = Except.ok (fieldsOf [Block.paragraph "x"]) :=
  ⟨(extraction_fails_iff_no_blocks []).1.mpr rfl,
   (extraction_fails_iff_no_blocks [Block.paragraph "x"]).2 (by decide)⟩

/-- C5: conversion is deterministic — two successful runs on the same document
and suffixes yield equal bundles, and the bundle entry names depend only on
the suffixes, never on the document content. -/
theorem convert_deterministic (d d2 : RawDocument) (sA sB : String) (b b2 : Bundle)
    (h : convert d sA sB = Except.ok b) (h2 : convert d2 sA sB = Except.ok b2) :
    (d = d2 → b = b2) ∧ b.docA.name = b2.docA.name ∧ b.docB.name = b2.docB.name := by
  have nA := convert_ok_names h
  have nB := convert_ok_names h2
  refine ⟨?_, nA.1.trans nB.1.symm, nA.2.trans nB.2.symm⟩
  intro hd
  subst hd
  exact Except.ok.inj (h.symm.trans h2)

/-- Witness for C5: two identical runs on a concrete document agree. -/
theorem convert_deterministic_witness :
    bundleOf [Block.paragraph "x"] "a" "b" = bundleOf [Block.paragraph "x"] "a" "b" ∧
    (bundleOf [Block.paragraph "x"] "a" "b").docA.name =
      (bundleOf [Block.paragraph "x"] "a" "b").docA.name := by
  have hc : convert [Block.paragraph "x"] "a" "b" =
      Except.ok (bundleOf [Block.paragraph "x"] "a" "b") :=
    convert_ok_eq [Block.paragraph "x"] "a" "b" (by decide) (by decide) (by decide)
  have h := convert_deterministic [Block.paragraph "x"] [Block.paragraph "x"] "a" "b" _ _ hc hc
  exact ⟨h.1 rfl, h.2.1⟩

/-- C6: two distinct safe suffixes always produce distinct reference
identifiers — composition with the fixed stem is injective. -/
theorem composeRef_distinct (sA sB : String) (hA : safeSuffix sA = true)
    (hB : safeSuffix sB = true) (hne : sA ≠ sB) :
    composeRef refStem sA ≠ composeRef refStem sB :=
  fun h => hne (composeRef_inj h)

/-- Witness for C6 at the suffixes of the concrete scenario. -/
theorem composeRef_distinct_witness :
    (composeRef refStem "2025-001" == composeRef refStem "2025-002") = false := by
  have h := composeRef_distinct "2025-001" "2025-002" (by decide) (by decide) (by decide)
  exact beq_eq_false_iff_ne.mpr h

/-- C7: label matching is case- and punctuation-insensitive — the spellings
Insured: and INSURED : resolve to the same contract field and extract the same
value from any document — and resolution is a deterministic first-match
function. -/
theorem label_matching_insensitive :
    matchLabel "Insured:" = some FieldKey.insured ∧
    matchLabel "INSURED :" = some FieldKey.insured ∧
    (∀ (v : String) (rest : RawDocument),
        extractField (Block.table [["Insured:", v]] :: rest) FieldKey.insured =
          extractField (Block.table [["INSURED :", v]] :: rest) FieldKey.insured) ∧
    (∀ (s : String) (k k2 : FieldKey),
        matchLabel s = some k → matchLabel s = some k2 → k = k2) := by
  have h1 : matchLabel "Insured:" = some FieldKey.insured := by decide
  have h2 : matchLabel "INSURED :" = some FieldKey.insured := by decide
  refine ⟨h1, h2, ?_, ?_⟩
  · intro v rest
    have t1 : tableLookup (Block.table [["Insured:", v]] :: rest) FieldKey.insured =
        some (String.intercalate " " [v]) := by
      simp [tableLookup, h1]
    have t2 : tableLookup (Block.table [["INSURED :", v]] :: rest) FieldKey.insured =
        some (String.intercalate " " [v]) := by
      simp [tableLookup, h2]
    simp [extractField, t1, t2]
  · intro s k k2 e1 e2
    exact Option.some.inj (e1.symm.trans e2)

/-- Witness for C7 at the value of the concrete scenario. -/
theorem label_matching_insensitive_witness :
    matchLabel "Insured:" = some FieldKey.insured ∧
    extractField [Block.table [["Insured:", "Acme Reinsurance Ltd"]]] FieldKey.insured =
      extractField [Block.table [["INSURED :", "Acme Reinsurance Ltd"]]] FieldKey.insured := by
  have h := label_matching_insensitive
  exact ⟨h.1, h.2.2.1 "Acme Reinsurance Ltd" []⟩

end Debit

namespace Gate

/-- C8: the middleware passes a request through exactly when the path is
excluded or the Authorization header carries a Basic credential whose decoded
user and password parts equal the configured values; every other request gets
a 401 carrying one of the two WWW-Authenticate challenge values. -/
theorem middleware_gate (u pw : String) (req : MwRequest) :
    (middleware u pw req = MwResponse.next ↔
      excludedPath req.pathname = true ∨ authPasses u pw (req.authorization.getD "") = true) ∧
    (middleware u pw req = MwResponse.next ∨
      middleware u pw req = MwResponse.unauthorized "Authentication required." challengePlain ∨
      middleware u pw req = MwResponse.unauthorized "Invalid credentials." challengeUtf8) := by
  by_cases hex : excludedPath req.pathname = true
  · constructor
    · simp [middleware, hex]
    · left
      simp [middleware, hex]
  · have hex2 : excludedPath req.pathname = false := by simpa using hex
    by_cases hbs : StrOps.strStartsWith (req.authorization.getD "") "Basic " = true
    · cases hat : atob ((StrOps.splitChar ' ' (req.authorization.getD ""))[1]?.getD "") with
      | none =>
          constructor
          · simp [middleware, authPasses, hex2, hbs, hat]
          · right; right
            simp [middleware, hex2, hbs, hat]
      | some decoded =>
          by_cases hcr : (StrOps.splitChar ':' decoded)[0]?.getD "" = u ∧
              (StrOps.splitChar ':' decoded)[1]? = some pw
          · constructor
            · simp [middleware, authPasses, hex2, hbs, hat, hcr.1, hcr.2]
            · left
              simp [middleware, hex2, hbs, hat, hcr.1, hcr.2]
          · constructor
            · simp [middleware, authPasses, hex2, hbs, hat, hcr]
            · right; right
              simp [middleware, hex2, hbs, hat, hcr]
    · have hbs2 : StrOps.strStartsWith (req.authorization.getD "") "Basic " = false := by
        simpa using hbs
      constructor
      · simp [middleware, authPasses, hex2, hbs2]
      · right; left
        simp [middleware, hex2, hbs2]

/-- Witness for C8: a plain request without credentials lands in one of the
three characterised outcomes. -/
theorem middleware_gate_witness :
    middleware "u" "p" { pathname := "/", authorization := none } = MwResponse.next ∨
    middleware "u" "p" { pathname := "/", authorization := none } =
      MwResponse.unauthorized "Authentication required." challengePlain ∨
    middleware "u" "p" { pathname := "/", authorization := none } =
      MwResponse.unauthorized "Invalid credentials." challengeUtf8 :=
  (middleware_gate "u" "p" { pathname := "/", authorization := none }).2

/-- C9: with both credential environment variables unset (empty user and
password), any request whose Authorization header is Basic followed by the
base64 encoding of a lone colon passes the gate, whatever its path. -/
theorem middleware_empty_env_bypass (path : String) :
    middleware "" "" { pathname := path, authorization := some "Basic Og==" } =
      MwResponse.next := by
  by_cases hex : excludedPath path = true
  · simp [middleware, hex]
  · have hex2 : excludedPath path = false := by simpa using hex
    simp only [middleware, hex2, Bool.false_eq_true, if_false]
    rfl

/-- Witness for C9 at a concrete non-excluded path. -/
theorem middleware_empty_env_bypass_witness :
    middleware "" "" { pathname := "/upload", authorization := some "Basic Og==" } =
      MwResponse.next :=
  middleware_empty_env_bypass "/upload"

end Gate

namespace Form

theorem head_dropWhile_false {p : Char → Bool} :
    ∀ {l : List Char} {c : Char}, (l.dropWhile p).head? = some c → p c = false := by
  intro l
  induction l with
  | nil => intro c h; simp [List.dropWhile] at h
  | cons a t ih =>
      intro c h
      by_cases hp : p a = true
      · rw [List.dropWhile_cons_of_pos hp] at h
        exact ih h
      · rw [List.dropWhile_cons_of_neg hp] at h
        have ha : a = c := by simpa using h
        subst ha
        simpa using hp

theorem jsTrim_edges (s : String) :
    (∀ c, (jsTrim s).data.head? = some c → isJsWs c = false) ∧
    (∀ c, (jsTrim s).data.getLast? = some c → isJsWs c = false) := by
  constructor
  · intro c h
    rw [show (jsTrim s).data =
        ((s.data.dropWhile isJsWs).reverse.dropWhile isJsWs).reverse from rfl] at h
    rw [List.head?_reverse] at h
    have hne : (s.data.dropWhile isJsWs).reverse.dropWhile isJsWs ≠ [] := by
      intro h0
      rw [h0] at h
      simp at h
    obtain ⟨t, ht⟩ := List.dropWhile_suffix (l := (s.data.dropWhile isJsWs).reverse) isJsWs
    have h2 : (t ++ (s.data.dropWhile isJsWs).reverse.dropWhile isJsWs).getLast? = some c := by
      rw [List.getLast?_append_of_ne_nil t hne]
      exact h
    rw [ht, List.getLast?_reverse] at h2
    exact head_dropWhile_false h2
  · intro c h
    rw [show (jsTrim s).data =
        ((s.data.dropWhile isJsWs).reverse.dropWhile isJsWs).reverse from rfl] at h
    rw [List.getLast?_reverse] at h
    exact head_dropWhile_false h

/-- C10: whenever the form submits, the submitted suffix values are the
trimmed inputs and carry no leading or trailing whitespace; and whenever no
file is selected or either suffix is empty or whitespace-only, the gate is
disabled and nothing is submitted. -/
theorem form_trims_and_gates (file : Option String) (refA refB : String) (loading : Bool) :
    (∀ a b : String, handleGenerate file refA refB loading = some (a, b) →
        a = jsTrim refA ∧ b = jsTrim refB ∧
        (∀ c, a.data.head? = some c → isJsWs c = false) ∧
        (∀ c, a.data.getLast? = some c → isJsWs c = false) ∧
        (∀ c, b.data.head? = some c → isJsWs c = false) ∧
        (∀ c, b.data.getLast? = some c → isJsWs c = false)) ∧
    ((file = none ∨ jsTrim refA = "" ∨ jsTrim refB = "") →
        canGenerate file refA refB loading = false ∧
        handleGenerate file refA refB loading = none) := by
  constructor
  · intro a b h
    unfold handleGenerate at h
    split at h
    · simp only [Option.some.injEq, Prod.mk.injEq] at h
      obtain ⟨h1, h2⟩ := h
      subst h1
      subst h2
      exact ⟨rfl, rfl, (jsTrim_edges refA).1, (jsTrim_edges refA).2,
             (jsTrim_edges refB).1, (jsTrim_edges refB).2⟩
    · simp at h
  · intro h
    have hcg : canGenerate file refA refB loading = false := by
      rcases h with h | h | h
      · simp [canGenerate, h]
      · simp [canGenerate, h]
      · simp [canGenerate, h]
    exact ⟨hcg, by simp [handleGenerate, hcg]⟩

/-- Witness for C10: with no file selected the gate is off and nothing is
submitted. -/
theorem form_trims_and_gates_witness :
    canGenerate none "a" "b" false = false ∧ handleGenerate none "a" "b" false = none :=
  (form_trims_and_gates none "a" "b" false).2 (Or.inl rfl)

end Form
